import Mathlib

/-!
Verification of the `agent-kits` core module (`packages/core/index.ts`):
a minimal abstraction layer over a chat-completion provider.  The data
model (`Model`, `ContentBlock`, `Message`, type guards, `getModel`,
`StringEnum`) is embedded directly from the TypeScript source.  The
`stream()` event state machine and `complete()` are not present in the
source tree (only their tests and callers are); those components are
modelled from the specification, as marked on each definition.
-/

namespace AgentKits

/-- A JSON value, standing in for TypeScript `any` in
`arguments: Record<string, any>`. -/
inductive JsonVal where
  | str (s : String)
  | num (n : Int)
  | bool (b : Bool)
  | null
  | arr (xs : List JsonVal)
  | obj (fields : List (String × JsonVal))

/-- `interface Model { provider: string; name: string }` from the source. -/
structure Model where
  provider : String
  name : String
deriving DecidableEq

/-- `type ContentBlock = TextBlock | ToolCallBlock` from the source:
`TextBlock{type:'text', text}` and
`ToolCallBlock{type:'toolCall', id, name, arguments}`. -/
inductive ContentBlock where
  | text (text : String)
  | toolCall (id : String) (name : String) (arguments : List (String × JsonVal))

/-- The discriminating `type` tag of a content block. -/
def ContentBlock.type : ContentBlock → String
  | .text _ => "text"
  | .toolCall _ _ _ => "toolCall"

/-- `isTextBlock(block) { return block.type === 'text' }` from the source. -/
def isTextBlock (block : ContentBlock) : Bool :=
  block.type == "text"

/-- `isToolCallBlock(block) { return block.type === 'toolCall' }` from the
source. -/
def isToolCallBlock (block : ContentBlock) : Bool :=
  block.type == "toolCall"

/-- `type Message = UserMessage | AssistantMessage | ToolResultMessage`
from the source, tagged by `role`. -/
inductive Message where
  | user (content : String)
  | assistant (content : List ContentBlock)
  | toolResult (toolCallId : String) (toolName : String)
      (content : List ContentBlock) (isError : Bool) (timestamp : Nat)

/-- The discriminating `role` tag of a message. -/
def Message.role : Message → String
  | .user _ => "user"
  | .assistant _ => "assistant"
  | .toolResult _ _ _ _ _ => "toolResult"

/-- `isUserMessage(m) { return m.role === 'user' }` from the source. -/
def isUserMessage (message : Message) : Bool :=
  message.role == "user"

/-- `isAssistantMessage(m) { return m.role === 'assistant' }` from the
source. -/
def isAssistantMessage (message : Message) : Bool :=
  message.role == "assistant"

/-- `isToolResultMessage(m) { return m.role === 'toolResult' }` from the
source. -/
def isToolResultMessage (message : Message) : Bool :=
  message.role == "toolResult"

/-- `getModel(provider, modelName)` from the source: returns
`{ provider, name: modelName }`. -/
def getModel (provider : String) (modelName : String) : Model :=
  { provider := provider, name := modelName }

/-- The fragment of TypeBox `TSchema` values this module constructs:
`Type.Literal(v)` and `Type.Union(members)`. -/
inductive TSchema where
  | literal (value : String)
  | union (anyOf : List TSchema)

/-- `StringEnum(values) { return Type.Union(values.map(v => Type.Literal(v))) }`
from the source. -/
def StringEnum (values : List String) : TSchema :=
  TSchema.union (values.map (fun v => TSchema.literal v))

/-- Modelled from the spec: the provider-reported usage object
`{prompt_tokens, completion_tokens, total_tokens, cached_tokens}`
(`cached_tokens` may be absent). -/
structure UsageWire where
  prompt_tokens : Nat
  completion_tokens : Nat
  total_tokens : Nat
  cached_tokens : Option Nat
deriving DecidableEq

/-- The `cost` record of the produced usage: `{total}`. -/
structure Cost where
  total : Nat
deriving DecidableEq

/-- The produced usage schema `{input, output, cost:{total}, cached}`. -/
structure Usage where
  input : Nat
  output : Nat
  cost : Cost
  cached : Option Nat
deriving DecidableEq

/-- Modelled from the spec: usage is `{input, output, cost:{total}, cached}`
sourced directly from provider-reported token counts, with no independent
cost calculation. -/
def convertUsage (u : UsageWire) : Usage :=
  { input := u.prompt_tokens
    output := u.completion_tokens
    cost := { total := u.total_tokens }
    cached := u.cached_tokens }

/-- Modelled from the spec: the `StreamEvent` tags emitted by the `stream()`
state machine (the implemented subset; `toolcall_delta`/`toolcall_end` are
an acknowledged gap and never emitted). -/
inductive StreamEvent where
  | start (model : String)
  | text_start
  | text_delta (delta : String)
  | toolcall_start (contentIndex : Nat)
  | text_end
  | done (reason : String)
  | error (message : String)
deriving DecidableEq

/-- The `type` tag of a stream event. -/
def StreamEvent.etype : StreamEvent → String
  | .start _ => "start"
  | .text_start => "text_start"
  | .text_delta _ => "text_delta"
  | .toolcall_start _ => "toolcall_start"
  | .text_end => "text_end"
  | .done _ => "done"
  | .error _ => "error"

/-- Modelled from the spec: one incremental provider chunk, optionally
carrying `choices[0].delta` content, a tool-call fragment, and/or a
`usage` payload. -/
structure Chunk where
  content : Option String
  hasToolCallFragment : Bool
  usage : Option UsageWire
deriving DecidableEq

/-- Modelled from the spec: the provider side of one streaming session —
either the request itself fails, or it yields a finite chunk sequence
possibly cut short by an iteration error. -/
inductive ProviderStream where
  | requestFailure (err : String)
  | chunks (cs : List Chunk) (iterFailure : Option String)

/-- Modelled from the spec: the per-session mutable accumulator state
(`contentBlocks`, `currentText`, `usage`), private to one `stream()` call. -/
structure StreamState where
  contentBlocks : List ContentBlock
  currentText : String
  usage : Option Usage

/-- The initial accumulator state of a session. -/
def initialState : StreamState :=
  { contentBlocks := [], currentText := "", usage := none }

/-- Modelled from the spec, one chunk step of the `stream()` state machine:
a chunk carrying incremental text emits `text_delta` and appends the
non-empty delta to the accumulator; a chunk carrying a tool-call fragment
emits `toolcall_start` with the current content-block index; a chunk
carrying usage stores the converted usage. -/
def processChunk (st : StreamState) (c : Chunk) : StreamState × List StreamEvent :=
  let textStep :=
    match c.content with
    | some d =>
        if d = "" then (st, ([] : List StreamEvent))
        else ({ st with currentText := st.currentText ++ d }, [StreamEvent.text_delta d])
    | none => (st, [])
  let st1 := textStep.1
  let evs1 := textStep.2
  let evs2 :=
    if c.hasToolCallFragment then [StreamEvent.toolcall_start st1.contentBlocks.length]
    else ([] : List StreamEvent)
  let st2 :=
    match c.usage with
    | some u => { st1 with usage := some (convertUsage u) }
    | none => st1
  (st2, evs1 ++ evs2)

/-- Folds `processChunk` over the chunk sequence, collecting emitted events. -/
def runChunks (st : StreamState) : List Chunk → StreamState × List StreamEvent
  | [] => (st, [])
  | c :: cs =>
      let step := processChunk st c
      let rest := runChunks step.1 cs
      (rest.1, step.2 ++ rest.2)

/-- Modelled from the spec: when the chunk stream ends, if the accumulator
is non-empty, exactly one `TextBlock` is appended to the session's
content-block sequence. -/
def finishState (st : StreamState) : StreamState :=
  if st.currentText = "" then st
  else { st with contentBlocks := st.contentBlocks ++ [ContentBlock.text st.currentText] }

/-- Modelled from the spec, the full event sequence of one `stream()`
session: `start` immediately; on request failure a terminal `error`;
otherwise `text_start` unconditionally, the per-chunk events, then either
a terminal `error` (iteration failure) or `text_end` followed by
`done("stop")`. -/
def streamEvents (model : Model) : ProviderStream → List StreamEvent
  | .requestFailure e => [StreamEvent.start model.name, StreamEvent.error e]
  | .chunks cs iterFailure =>
      StreamEvent.start model.name :: StreamEvent.text_start ::
        ((runChunks initialState cs).2 ++
          match iterFailure with
          | some e => [StreamEvent.error e]
          | none => [StreamEvent.text_end, StreamEvent.done "stop"])

/-- The produced message schema: `AssistantMessage & {usage}`. -/
structure AssistantResult where
  content : List ContentBlock
  usage : Option Usage

/-- Modelled from the spec: the final accumulated message of a session,
`{role:"assistant", content: contentBlocks, usage}`; the end-of-stream
`TextBlock` append runs only when the chunk stream drains normally. -/
def streamFinal : ProviderStream → AssistantResult
  | .requestFailure _ => { content := [], usage := none }
  | .chunks cs iterFailure =>
      let st := (runChunks initialState cs).1
      let st2 :=
        match iterFailure with
        | none => finishState st
        | some _ => st
      { content := st2.contentBlocks, usage := st2.usage }

/-- The `text_delta` payloads of an event sequence, in emission order. -/
def textDeltas (evs : List StreamEvent) : List String :=
  evs.filterMap (fun e =>
    match e with
    | .text_delta d => some d
    | _ => none)

/-- Concatenation of a list of strings, in order. -/
def concatAll : List String → String
  | [] => ""
  | d :: ds => d ++ concatAll ds

/-- Modelled from the spec: the observable state of one `stream()` session
as seen by the terminal result accessor — the provider interaction of the
session, how many provider requests were issued, how many times the drain
ran, and the cached final message (if any). -/
structure Session where
  model : Model
  provider : ProviderStream
  requestsIssued : Nat
  drainsRun : Nat
  cachedResult : Option AssistantResult

/-- A freshly constructed `stream()` session: one provider request issued,
no drain run yet, nothing cached. -/
def newSession (model : Model) (provider : ProviderStream) : Session :=
  { model := model, provider := provider, requestsIssued := 1,
    drainsRun := 0, cachedResult := none }

/-- Modelled from the spec: the terminal result accessor.  If a final
message is cached it is returned as is, without re-issuing the provider
request or re-running the drain; otherwise the event sequence is drained
once and the resulting final message is cached and returned. -/
def sessionResult (s : Session) : AssistantResult × Session :=
  match s.cachedResult with
  | some msg => (msg, s)
  | none =>
      let msg := streamFinal s.provider
      (msg, { s with drainsRun := s.drainsRun + 1, cachedResult := some msg })

/-- Modelled from the spec: one returned tool call of a non-streaming
provider response — `{id, function:{name, arguments}}` with `arguments`
a JSON-encoded string. -/
structure WireToolCall where
  id : String
  name : String
  arguments : String
deriving DecidableEq

/-- Modelled from the spec: the single non-streaming provider response —
`choices[0].message.content`, `choices[0].message.tool_calls`, `usage`. -/
structure WireResponse where
  content : Option String
  tool_calls : List WireToolCall
  usage : UsageWire
deriving DecidableEq

/-- Sequential effectful map over `Except`: the first failure aborts and
propagates, exactly like an uncaught exception in a loop. -/
def mapExcept (f : α → Except String β) : List α → Except String (List β)
  | [] => .ok []
  | a :: as =>
      match f a with
      | .ok b =>
          match mapExcept f as with
          | .ok bs => .ok (b :: bs)
          | .error e => .error e
      | .error e => .error e

/-- Modelled from the spec: the leading `TextBlock` of a `complete()`
result — present exactly when the response carries non-empty content
text. -/
def completeTextPart (resp : WireResponse) : List ContentBlock :=
  match resp.content with
  | some t => if t = "" then [] else [ContentBlock.text t]
  | none => []

/-- Modelled from the spec: `complete()` output construction.  `parse` is
the external JSON parser applied to each tool call's JSON-encoded
argument string; a parse failure is not caught locally and propagates as
a hard error.  On success the content is a `TextBlock` (if text is
present) followed by one `ToolCallBlock` per returned tool call, and the
usage is the converted provider usage. -/
def complete (parse : String → Option (List (String × JsonVal)))
    (resp : WireResponse) : Except String AssistantResult :=
  match mapExcept (fun tc =>
      match parse tc.arguments with
      | some args => Except.ok (ContentBlock.toolCall tc.id tc.name args)
      | none => Except.error ("JSON parse failure: " ++ tc.arguments)) resp.tool_calls with
  | .ok toolBlocks =>
      .ok { content := completeTextPart resp ++ toolBlocks
            usage := some (convertUsage resp.usage) }
  | .error e => .error e

/-! ### Helper lemmas about the chunk fold -/

theorem append_ne_empty_left (d x : String) (h : d ≠ "") : d ++ x ≠ "" := by
  intro hc
  have hd : d.data ++ x.data = [] := by
    have := congrArg String.data hc
    simpa [String.data_append] using this
  have h2 : d.data = [] := (List.append_eq_nil.mp hd).1
  exact h (by cases d; simp_all)

theorem concatAll_append (a b : List String) :
    concatAll (a ++ b) = concatAll a ++ concatAll b := by
  induction a with
  | nil => simp [concatAll]
  | cons d ds ih => simp [concatAll, ih, String.append_assoc]

theorem concatAll_ne_empty (ds : List String) (hne : ds ≠ [])
    (h : ∀ d ∈ ds, d ≠ "") : concatAll ds ≠ "" := by
  cases ds with
  | nil => exact absurd rfl hne
  | cons d rest =>
      exact append_ne_empty_left d (concatAll rest) (h d (List.mem_cons_self d rest))

theorem textDeltas_append (a b : List StreamEvent) :
    textDeltas (a ++ b) = textDeltas a ++ textDeltas b := by
  simp [textDeltas, List.filterMap_append]

theorem processChunk_blocks (st : StreamState) (c : Chunk) :
    (processChunk st c).1.contentBlocks = st.contentBlocks := by
  obtain ⟨oc, tf, ou⟩ := c
  cases oc <;> cases ou <;> simp [processChunk] <;> split <;> simp

theorem processChunk_usage (st : StreamState) (c : Chunk) :
    (processChunk st c).1.usage
      = match c.usage with
        | some u => some (convertUsage u)
        | none => st.usage := by
  obtain ⟨oc, tf, ou⟩ := c
  cases oc <;> cases ou <;> simp [processChunk] <;> split <;> simp

theorem processChunk_events (st : StreamState) (c : Chunk) :
    ∀ e ∈ (processChunk st c).2,
      (∃ d, e = StreamEvent.text_delta d) ∨ (∃ i, e = StreamEvent.toolcall_start i) := by
  intro e he
  obtain ⟨oc, tf, ou⟩ := c
  cases oc <;> cases tf <;> cases ou <;> simp [processChunk] at he <;> try split at he
  all_goals try simp at he
  all_goals try (rcases he with rfl | rfl)
  all_goals first | (left; exact ⟨_, rfl⟩) | (right; exact ⟨_, rfl⟩)

theorem processChunk_text (st : StreamState) (c : Chunk) :
    (processChunk st c).1.currentText
      = st.currentText ++ concatAll (textDeltas (processChunk st c).2) := by
  obtain ⟨oc, tf, ou⟩ := c
  cases oc <;> cases tf <;> cases ou <;> simp [processChunk, textDeltas, concatAll]
    <;> try split
  all_goals simp [textDeltas, concatAll]

theorem processChunk_delta_ne (st : StreamState) (c : Chunk) :
    ∀ d, StreamEvent.text_delta d ∈ (processChunk st c).2 → d ≠ "" := by
  intro d hd
  obtain ⟨oc, tf, ou⟩ := c
  cases oc <;> cases tf <;> cases ou <;> simp [processChunk] at hd <;> try split at hd
  all_goals try simp at hd
  all_goals try (rcases hd with ⟨rfl, h⟩ | h)
  all_goals simp_all

theorem runChunks_blocks (cs : List Chunk) : ∀ st : StreamState,
    (runChunks st cs).1.contentBlocks = st.contentBlocks := by
  induction cs with
  | nil => intro st; rfl
  | cons c cs ih =>
      intro st
      simp only [runChunks]
      rw [ih, processChunk_blocks]

theorem runChunks_events (cs : List Chunk) : ∀ st : StreamState,
    ∀ e ∈ (runChunks st cs).2,
      (∃ d, e = StreamEvent.text_delta d) ∨ (∃ i, e = StreamEvent.toolcall_start i) := by
  induction cs with
  | nil => intro st e he; simp [runChunks] at he
  | cons c cs ih =>
      intro st e he
      simp only [runChunks, List.mem_append] at he
      rcases he with h | h
      · exact processChunk_events st c e h
      · exact ih (processChunk st c).1 e h

theorem runChunks_text (cs : List Chunk) : ∀ st : StreamState,
    (runChunks st cs).1.currentText
      = st.currentText ++ concatAll (textDeltas (runChunks st cs).2) := by
  induction cs with
  | nil => intro st; simp [runChunks, textDeltas, concatAll]
  | cons c cs ih =>
      intro st
      simp only [runChunks]
      rw [ih, processChunk_text, textDeltas_append, concatAll_append, String.append_assoc]

theorem runChunks_delta_ne (cs : List Chunk) : ∀ st : StreamState,
    ∀ d, StreamEvent.text_delta d ∈ (runChunks st cs).2 → d ≠ "" := by
  induction cs with
  | nil => intro st d hd; simp [runChunks] at hd
  | cons c cs ih =>
      intro st d hd
      simp only [runChunks, List.mem_append] at hd
      rcases hd with h | h
      · exact processChunk_delta_ne st c d h
      · exact ih (processChunk st c).1 d h

theorem runChunks_usage_none (cs : List Chunk) : ∀ st : StreamState,
    cs.filterMap (fun c => c.usage) = [] → (runChunks st cs).1.usage = st.usage := by
  induction cs with
  | nil => intro st _; rfl
  | cons c cs ih =>
      intro st h
      simp only [List.filterMap_cons] at h
      cases hu : c.usage with
      | some u => rw [hu] at h; simp at h
      | none =>
          rw [hu] at h
          simp only [runChunks]
          rw [ih _ h, processChunk_usage, hu]

theorem runChunks_usage_single (cs : List Chunk) : ∀ (st : StreamState) (u : UsageWire),
    cs.filterMap (fun c => c.usage) = [u] →
    (runChunks st cs).1.usage = some (convertUsage u) := by
  induction cs with
  | nil => intro st u h; simp at h
  | cons c cs ih =>
      intro st u h
      simp only [List.filterMap_cons] at h
      cases hu : c.usage with
      | some u' =>
          rw [hu] at h
          have h1 : u' = u ∧ cs.filterMap (fun c => c.usage) = [] := by
            constructor
            · exact (List.cons_eq_cons.mp h).1
            · exact (List.cons_eq_cons.mp h).2
          simp only [runChunks]
          rw [runChunks_usage_none cs _ h1.2, processChunk_usage, hu, h1.1]
      | none =>
          rw [hu] at h
          simp only [runChunks]
          exact ih _ u h

theorem finishState_usage (st : StreamState) : (finishState st).usage = st.usage := by
  unfold finishState
  split <;> rfl

theorem error_not_in_append_last (l : List StreamEvent) (x : StreamEvent)
    (h : ∀ e ∈ l, ∀ s, e ≠ StreamEvent.error s) :
    ∀ pre s post, l ++ [x] = pre ++ StreamEvent.error s :: post → post = [] := by
  induction l with
  | nil =>
      intro pre s post heq
      cases pre with
      | nil => exact (List.cons_eq_cons.mp heq).2.symm
      | cons b pre' =>
          have := (List.cons_eq_cons.mp heq).2
          exact absurd this.symm (by simp)
  | cons a l ih =>
      intro pre s post heq
      cases pre with
      | nil =>
          have ha := (List.cons_eq_cons.mp heq).1
          exact absurd ha (h a (List.mem_cons_self a l) s)
      | cons b pre' =>
          have h2 := (List.cons_eq_cons.mp heq).2
          exact ih (fun e he s' => h e (List.mem_cons_of_mem a he) s') pre' s post h2

theorem mapExcept_ok (f : α → Except String β) (g : α → β) :
    ∀ l : List α, (∀ a ∈ l, f a = .ok (g a)) → mapExcept f l = .ok (l.map g) := by
  intro l
  induction l with
  | nil => intro _; rfl
  | cons a as ih =>
      intro h
      have ha : f a = .ok (g a) := h a (List.mem_cons_self a as)
      have has : mapExcept f as = .ok (as.map g) :=
        ih (fun b hb => h b (List.mem_cons_of_mem a hb))
      simp [mapExcept, ha, has]

theorem mapExcept_error (f : α → Except String β) :
    ∀ (l : List α) (a : α), a ∈ l → (∀ b, f a ≠ .ok b) →
      ∃ e, mapExcept f l = .error e := by
  intro l
  induction l with
  | nil => intro a ha; simp at ha
  | cons x xs ih =>
      intro a ha hf
      cases hx : f x with
      | error e => exact ⟨e, by simp [mapExcept, hx]⟩
      | ok b =>
          rcases List.mem_cons.mp ha with rfl | hmem
          · exact absurd hx (hf b)
          · rcases ih a hmem hf with ⟨e, he⟩
            exact ⟨e, by simp [mapExcept, hx, he]⟩

/-! ### Claim theorems -/

/-- C7: For every pair of strings `(provider, name)`, `getModel` returns
exactly the record `{provider, name}`; it is a pure total record
constructor, e.g. `getModel("openai","gpt-4") = {provider:"openai",
name:"gpt-4"}`. -/
theorem getModel_pure_constructor (provider modelName : String) :
    getModel provider modelName = { provider := provider, name := modelName } ∧
    (getModel provider modelName).provider = provider ∧
    (getModel provider modelName).name = modelName ∧
    getModel "openai" "gpt-4" = { provider := "openai", name := "gpt-4" } :=
  ⟨rfl, rfl, rfl, rfl⟩

/-- C8: `ContentBlock` is a closed two-variant union discriminated by the
`type` field, and the guards decide it: `isTextBlock b` holds iff
`b.type = "text"`, `isToolCallBlock b` holds iff `b.type = "toolCall"`,
and exactly one of the two holds for every block. -/
theorem contentBlock_guards_partition (b : ContentBlock) :
    (isTextBlock b = true ↔ b.type = "text") ∧
    (isToolCallBlock b = true ↔ b.type = "toolCall") ∧
    (isTextBlock b || isToolCallBlock b) = true ∧
    (isTextBlock b && isToolCallBlock b) = false := by
  cases b <;> simp [isTextBlock, isToolCallBlock, ContentBlock.type]

/-- C9: The three message type guards partition the `Message` union: each
holds precisely when `role` is `"user"`, `"assistant"`, `"toolResult"`
respectively, and exactly one of the three holds for every message. -/
theorem message_guards_partition (m : Message) :
    (isUserMessage m = true ↔ m.role = "user") ∧
    (isAssistantMessage m = true ↔ m.role = "assistant") ∧
    (isToolResultMessage m = true ↔ m.role = "toolResult") ∧
    [isUserMessage m, isAssistantMessage m, isToolResultMessage m].count true = 1 := by
  cases m <;> simp [isUserMessage, isAssistantMessage, isToolResultMessage, Message.role,
    List.count_cons]

/-- C10: For every list of strings (including the empty list),
`StringEnum` returns a union schema with exactly one literal member per
element, in input order; it never fails (it is a total function). -/
theorem stringEnum_union_of_literals (values : List String) :
    ∃ members, StringEnum values = TSchema.union members ∧
      members.length = values.length ∧
      (∀ i : Nat, members[i]? = (values[i]?).map (fun v => TSchema.literal v)) := by
  refine ⟨values.map (fun v => TSchema.literal v), rfl, by simp, ?_⟩
  intro i
  simp [List.getElem?_map]

/-- C5: The terminal result accessor is idempotent: a second call returns
the same assistant message and leaves the session unchanged — in
particular the provider-request count and the drain count do not
increase. -/
theorem stream_result_idempotent (s : Session) :
    (sessionResult (sessionResult s).2).1 = (sessionResult s).1 ∧
    (sessionResult (sessionResult s).2).2 = (sessionResult s).2 ∧
    (sessionResult (sessionResult s).2).2.requestsIssued
      = (sessionResult s).2.requestsIssued ∧
    (sessionResult (sessionResult s).2).2.drainsRun = (sessionResult s).2.drainsRun := by
  cases hc : s.cachedResult <;> simp [sessionResult, hc]

/-- C1: For every successful `stream()` session, the event-type sequence
restricted to `{start, text_start, text_end, done}` is exactly
`[start, text_start, text_end, done]`, with zero or more `text_delta`
events (and the gap's `toolcall_start` signals) strictly between
`text_start` and `text_end`; in particular `text_start` is emitted
exactly once even when the response contains no text. -/
theorem stream_event_ordering (m : Model) (cs : List Chunk) :
    ((streamEvents m (.chunks cs none)).filter
        (fun e => e.etype ∈ ["start", "text_start", "text_end", "done"])).map
        StreamEvent.etype
      = ["start", "text_start", "text_end", "done"] ∧
    ∃ mid, streamEvents m (.chunks cs none)
        = [StreamEvent.start m.name, StreamEvent.text_start] ++ mid
          ++ [StreamEvent.text_end, StreamEvent.done "stop"] ∧
      ∀ e ∈ mid, (∃ d, e = StreamEvent.text_delta d) ∨
        (∃ i, e = StreamEvent.toolcall_start i) := by
  have hmid := runChunks_events cs initialState
  constructor
  · have hnil : ((runChunks initialState cs).2.filter
        (fun e => e.etype ∈ ["start", "text_start", "text_end", "done"])) = [] := by
      rw [List.filter_eq_nil_iff]
      intro e he
      rcases hmid e he with ⟨d, rfl⟩ | ⟨i, rfl⟩ <;> simp [StreamEvent.etype]
    have hdec : streamEvents m (.chunks cs none)
        = [StreamEvent.start m.name, StreamEvent.text_start] ++ (runChunks initialState cs).2
          ++ [StreamEvent.text_end, StreamEvent.done "stop"] := by
      simp [streamEvents]
    rw [hdec, List.filter_append, List.filter_append, hnil]
    simp [StreamEvent.etype]
  · exact ⟨(runChunks initialState cs).2, by simp [streamEvents], hmid⟩

/-- C3: if an `error` event is emitted in a `stream()` session, it is the
last event of the session — no event of any kind (in particular no
`done`) follows it. -/
theorem stream_error_terminal (m : Model) (ps : ProviderStream)
    (pre : List StreamEvent) (s : String) (post : List StreamEvent)
    (h : streamEvents m ps = pre ++ StreamEvent.error s :: post) : post = [] := by
  cases ps with
  | requestFailure e =>
      refine error_not_in_append_last [StreamEvent.start m.name] (StreamEvent.error e)
        ?_ pre s post ?_
      · intro e' he' s'
        simp at he'
        subst he'
        simp
      · simpa [streamEvents] using h
  | chunks cs iterFailure =>
      cases iterFailure with
      | some e =>
          refine error_not_in_append_last
            (StreamEvent.start m.name :: StreamEvent.text_start ::
              (runChunks initialState cs).2)
            (StreamEvent.error e) ?_ pre s post ?_
          · intro e' he' s'
            rcases List.mem_cons.mp he' with rfl | he'
            · simp
            rcases List.mem_cons.mp he' with rfl | he'
            · simp
            rcases runChunks_events cs initialState e' he' with ⟨d, rfl⟩ | ⟨i, rfl⟩ <;> simp
          · simpa [streamEvents] using h
      | none =>
          refine error_not_in_append_last
            (StreamEvent.start m.name :: StreamEvent.text_start ::
              ((runChunks initialState cs).2 ++ [StreamEvent.text_end]))
            (StreamEvent.done "stop") ?_ pre s post ?_
          · intro e' he' s'
            rcases List.mem_cons.mp he' with rfl | he'
            · simp
            rcases List.mem_cons.mp he' with rfl | he'
            · simp
            rcases List.mem_append.mp he' with he' | he'
            · rcases runChunks_events cs initialState e' he' with ⟨d, rfl⟩ | ⟨i, rfl⟩ <;> simp
            · simp at he'
              subst he'
              simp
          · simpa [streamEvents] using h

/-- Witness for C3, at the concrete session of Scenario D: the provider
request fails with a network error, the observed events are
`[start, error]`, and the event list after the `error` event is empty. -/
theorem stream_error_terminal_witness :
    streamEvents (getModel "openai" "gpt-4") (.requestFailure "network error")
      = [StreamEvent.start "gpt-4"] ++ StreamEvent.error "network error" :: [] ∧
    ([] : List StreamEvent) = [] :=
  ⟨rfl, stream_error_terminal (getModel "openai" "gpt-4") (.requestFailure "network error")
    [StreamEvent.start "gpt-4"] "network error" [] rfl⟩

/-- C2: For every successful `stream()` session that produces at least one
text delta, the concatenation of all `text_delta` payloads in emission
order equals the `text` of the single `TextBlock` of the final
accumulated message, and exactly one `TextBlock` is appended (not one
per delta). -/
theorem stream_text_reconstruction (m : Model) (cs : List Chunk)
    (h : textDeltas (streamEvents m (.chunks cs none)) ≠ []) :
    (streamFinal (.chunks cs none)).content
      = [ContentBlock.text (concatAll (textDeltas (streamEvents m (.chunks cs none))))] ∧
    ((streamFinal (.chunks cs none)).content.filter (fun b => isTextBlock b)).length = 1 := by
  have hdel : textDeltas (streamEvents m (.chunks cs none))
      = textDeltas (runChunks initialState cs).2 := by
    simp [streamEvents, textDeltas, List.filterMap_append]
  have hne : ∀ d ∈ textDeltas (runChunks initialState cs).2, d ≠ "" := by
    intro d hd
    rw [textDeltas, List.mem_filterMap] at hd
    rcases hd with ⟨e, he, hfe⟩
    cases e <;> simp at hfe
    subst hfe
    exact runChunks_delta_ne cs initialState _ he
  have hacc : (runChunks initialState cs).1.currentText
      = concatAll (textDeltas (runChunks initialState cs).2) := by
    have ht := runChunks_text cs initialState
    simpa [initialState] using ht
  have haccne : (runChunks initialState cs).1.currentText ≠ "" := by
    rw [hacc]
    exact concatAll_ne_empty _ (by rw [hdel] at h; exact h) hne
  have hblocks : (runChunks initialState cs).1.contentBlocks = [] := by
    have hb := runChunks_blocks cs initialState
    simpa [initialState] using hb
  have hcontent : (streamFinal (.chunks cs none)).content
      = [ContentBlock.text (runChunks initialState cs).1.currentText] := by
    simp [streamFinal, finishState, haccne, hblocks]
  constructor
  · rw [hcontent, hdel, hacc]
  · rw [hcontent]
    simp [isTextBlock, ContentBlock.type]

/-- Witness for C2, at the chunk sequence of Scenario C: deltas
`"He"`, `"llo"` reconstruct to the single `TextBlock` `"Hello"`. -/
theorem stream_text_reconstruction_witness :
    textDeltas (streamEvents (getModel "kimi" "kimi-k2.5")
        (.chunks [⟨some "He", false, none⟩, ⟨some "llo", false, none⟩,
          ⟨none, false, some ⟨3, 2, 5, none⟩⟩] none)) ≠ [] ∧
    (streamFinal (.chunks [⟨some "He", false, none⟩, ⟨some "llo", false, none⟩,
          ⟨none, false, some ⟨3, 2, 5, none⟩⟩] none)).content
      = [ContentBlock.text "Hello"] ∧
    ((streamFinal (.chunks [⟨some "He", false, none⟩, ⟨some "llo", false, none⟩,
          ⟨none, false, some ⟨3, 2, 5, none⟩⟩] none)).content.filter
        (fun b => isTextBlock b)).length = 1 := by
  have hne : textDeltas (streamEvents (getModel "kimi" "kimi-k2.5")
      (.chunks [⟨some "He", false, none⟩, ⟨some "llo", false, none⟩,
        ⟨none, false, some ⟨3, 2, 5, none⟩⟩] none)) ≠ [] := by decide
  have hmain := stream_text_reconstruction (getModel "kimi" "kimi-k2.5")
    [⟨some "He", false, none⟩, ⟨some "llo", false, none⟩,
      ⟨none, false, some ⟨3, 2, 5, none⟩⟩] hne
  exact ⟨hne, hmain.1.trans (by rfl), hmain.2⟩

/-- C4: for a successful session in which the provider reports usage
`{prompt_tokens: p, completion_tokens: c, total_tokens: t, cached_tokens: k}`
(on exactly one chunk), the final message's usage is
`{input: p, output: c, cost: {total: t}, cached: k}`. -/
theorem stream_usage_passthrough (cs : List Chunk) (u : UsageWire)
    (h : cs.filterMap (fun c => c.usage) = [u]) :
    (streamFinal (.chunks cs none)).usage
      = some { input := u.prompt_tokens, output := u.completion_tokens,
               cost := { total := u.total_tokens }, cached := u.cached_tokens } := by
  have hu := runChunks_usage_single cs initialState u h
  have h2 : (streamFinal (.chunks cs none)).usage = (runChunks initialState cs).1.usage := by
    simp [streamFinal, finishState_usage]
  rw [h2, hu]
  rfl

/-- Witness for C4: the provider reports
`{prompt_tokens:10, completion_tokens:5, total_tokens:15, cached_tokens:0}`
and the final usage equals `{input:10, output:5, cost:{total:15}, cached:0}`. -/
theorem stream_usage_passthrough_witness :
    ([⟨none, false, some ⟨10, 5, 15, some 0⟩⟩] : List Chunk).filterMap
        (fun c => c.usage) = [⟨10, 5, 15, some 0⟩] ∧
    (streamFinal (.chunks [⟨none, false, some ⟨10, 5, 15, some 0⟩⟩] none)).usage
      = some { input := 10, output := 5, cost := { total := 15 }, cached := some 0 } :=
  ⟨by decide, stream_usage_passthrough [⟨none, false, some ⟨10, 5, 15, some 0⟩⟩]
    ⟨10, 5, 15, some 0⟩ (by decide)⟩

/-- The arguments-string parser and responses used to witness the
`complete()` construction at Scenario E. -/
def parseE (s : String) : Option (List (String × JsonVal)) :=
  if s = "\x7b\"x\":1\x7d" then some [("x", JsonVal.num 1)] else none

/-- Scenario E's provider response: one tool call `c1` on function `f`
with JSON-encoded arguments. -/
def respE : WireResponse :=
  { content := none
    tool_calls := [⟨"c1", "f", "\x7b\"x\":1\x7d"⟩]
    usage := ⟨0, 0, 0, none⟩ }

/-- A provider response whose tool-call argument string is not valid JSON
for `parseE`. -/
def respF : WireResponse :=
  { content := none
    tool_calls := [⟨"c1", "f", "not json"⟩]
    usage := ⟨0, 0, 0, none⟩ }

/-- C6: `complete()` builds the result content as a `TextBlock` when text
is present followed by one `ToolCallBlock` per returned tool call with
its arguments parsed from the JSON-encoded string; if any argument
string fails to parse, the error propagates uncaught. -/
theorem complete_content_construction
    (parse : String → Option (List (String × JsonVal)))
    (resp : WireResponse) (argsOf : WireToolCall → List (String × JsonVal)) :
    ((∀ tc ∈ resp.tool_calls, parse tc.arguments = some (argsOf tc)) →
      complete parse resp
        = .ok { content := completeTextPart resp
                  ++ resp.tool_calls.map
                    (fun tc => ContentBlock.toolCall tc.id tc.name (argsOf tc))
                usage := some (convertUsage resp.usage) }) ∧
    (∀ tc ∈ resp.tool_calls, parse tc.arguments = none →
      ∃ e, complete parse resp = Except.error e) := by
  constructor
  · intro hall
    have hmap : mapExcept (fun tc =>
        match parse tc.arguments with
        | some args => Except.ok (ContentBlock.toolCall tc.id tc.name args)
        | none => Except.error ("JSON parse failure: " ++ tc.arguments)) resp.tool_calls
        = .ok (resp.tool_calls.map
            (fun tc => ContentBlock.toolCall tc.id tc.name (argsOf tc))) := by
      apply mapExcept_ok
      intro tc htc
      rw [hall tc htc]
    simp [complete, hmap]
  · intro tc htc hnone
    have hbad : ∀ b, (match parse tc.arguments with
        | some args => Except.ok (ContentBlock.toolCall tc.id tc.name args)
        | none => Except.error ("JSON parse failure: " ++ tc.arguments))
          ≠ Except.ok b := by
      rw [hnone]
      intro b
      simp
    rcases mapExcept_error (fun tc =>
        match parse tc.arguments with
        | some args => Except.ok (ContentBlock.toolCall tc.id tc.name args)
        | none => Except.error ("JSON parse failure: " ++ tc.arguments))
      resp.tool_calls tc htc hbad with ⟨e, he⟩
    exact ⟨e, by simp [complete, he]⟩

/-- Witness for C6, at Scenario E: the tool call with arguments
`"\x7b\"x\":1\x7d"` yields the block
`toolCall "c1" "f" [("x", 1)]`, and an unparseable argument string makes
`complete` propagate an error. -/
theorem complete_content_construction_witness :
    (∀ tc ∈ respE.tool_calls, parseE tc.arguments = some [("x", JsonVal.num 1)]) ∧
    complete parseE respE
      = .ok ⟨[ContentBlock.toolCall "c1" "f" [("x", JsonVal.num 1)]],
          some ⟨0, 0, ⟨0⟩, none⟩⟩ ∧
    parseE "not json" = none ∧
    (∃ e, complete parseE respF = Except.error e) := by
  have hp : ∀ tc ∈ respE.tool_calls, parseE tc.arguments = some [("x", JsonVal.num 1)] := by
    intro tc htc
    simp [respE] at htc
    subst htc
    rfl
  refine ⟨hp, ?_, rfl, ?_⟩
  · exact (complete_content_construction parseE respE
      (fun _ => [("x", JsonVal.num 1)])).1 hp
  · exact (complete_content_construction parseE respF (fun _ => [])).2
      ⟨"c1", "f", "not json"⟩ (by simp [respF]) rfl
